import Mathlib

/-!
Shallow embedding of the OwidTable core (src/coreTable/OwidTable.ts) of the
owid-grapher repository, together with proofs about its filtering,
time-alignment, derived-metric, selection and legacy-ingestion operations.

Conventions of the embedding:
* JavaScript numbers are modelled exactly (as rationals) together with the
  special values NaN, Infinity and -Infinity; the value `undefined` of an
  absent object property is a further constructor.  Numeric-string coercion
  is not modelled: value columns of this data model hold numbers or are
  absent.
* A row is a record with the reserved identity fields (entityName,
  entityCode, entityId) and the resolved time, plus an association list for
  the value columns, mirroring a loosely typed JavaScript row object.
* Row identity (JavaScript object identity, as used by the Set-based
  filters and the selection state) is modelled by the position of the row
  inside the owning table, so tables carry their rows as a list and the
  selection as a list of row indices.
* Functions of the repository that are only imported by OwidTable.ts
  (findClosestTimeIndex, the column index valueByEntityNameAndTime, the
  generic filterBy of the base table, the lodash sum) are modelled from
  the specification, as indicated by their doc comments.
-/

/-- A JavaScript cell value: an exact number, NaN, positive or negative
Infinity, a string, or undefined (absent property). -/
inductive CellValue where
  | num (q : ℚ)
  | nan
  | inf
  | neginf
  | str (s : String)
  | undef
deriving DecidableEq

/-- JavaScript addition as used when summing a value column.  String
concatenation is not modelled (value columns are numeric): a string operand
yields NaN, like any other non-numeric operand. -/
def jsAdd : CellValue → CellValue → CellValue
  | CellValue.undef, _ => CellValue.nan
  | _, CellValue.undef => CellValue.nan
  | CellValue.str _, _ => CellValue.nan
  | _, CellValue.str _ => CellValue.nan
  | CellValue.nan, _ => CellValue.nan
  | _, CellValue.nan => CellValue.nan
  | CellValue.inf, CellValue.neginf => CellValue.nan
  | CellValue.neginf, CellValue.inf => CellValue.nan
  | CellValue.inf, _ => CellValue.inf
  | _, CellValue.inf => CellValue.inf
  | CellValue.neginf, _ => CellValue.neginf
  | _, CellValue.neginf => CellValue.neginf
  | CellValue.num a, CellValue.num b => CellValue.num (a + b)

/-- JavaScript multiplication of a cell by the literal 100, as in the
percentage and growth transforms (100 * value). -/
def jsMul100 : CellValue → CellValue
  | CellValue.num q => CellValue.num (100 * q)
  | CellValue.nan => CellValue.nan
  | CellValue.inf => CellValue.inf
  | CellValue.neginf => CellValue.neginf
  | CellValue.str _ => CellValue.nan
  | CellValue.undef => CellValue.nan

/-- JavaScript division of cell values.  Division by zero follows IEEE
rules: 0/0 is NaN, a positive number over zero is Infinity, a negative one
is -Infinity.  The signed zero distinction is not modelled. -/
def jsDiv : CellValue → CellValue → CellValue
  | CellValue.num a, CellValue.num b =>
    if b = 0 then
      (if a = 0 then CellValue.nan else if 0 < a then CellValue.inf else CellValue.neginf)
    else CellValue.num (a / b)
  | CellValue.num _, CellValue.inf => CellValue.num 0
  | CellValue.num _, CellValue.neginf => CellValue.num 0
  | CellValue.inf, CellValue.num b =>
    if 0 ≤ b then CellValue.inf else CellValue.neginf
  | CellValue.neginf, CellValue.num b =>
    if 0 ≤ b then CellValue.neginf else CellValue.inf
  | _, _ => CellValue.nan

/-- Modelled from the spec: the sum used by
toPercentageFromEachEntityForEachTime comes from grapher/utils/Util (a
lodash re-export), which is not under src/.  Per the spec it sums the
column across all entities present at a time; entries that are absent
(undefined) are skipped, an empty array sums to 0, and an array whose
entries are all absent has an absent sum. -/
def jsSumAux (acc : Option CellValue) : List CellValue → Option CellValue
  | [] => acc
  | v :: rest =>
    match v with
    | CellValue.undef => jsSumAux acc rest
    | _ =>
      match acc with
      | none => jsSumAux (some v) rest
      | some a => jsSumAux (some (jsAdd a v)) rest

/-- Modelled from the spec: see jsSumAux. -/
def jsSum (l : List CellValue) : CellValue :=
  if l.isEmpty then CellValue.num 0
  else
    match jsSumAux none l with
    | none => CellValue.undef
    | some v => v

/-- Column type tags of CoreTableConstants / ColumnTypeNames. -/
inductive ColumnTypeNames where
  | Categorical
  | Numeric
  | Year
  | Date
  | Percentage
  | RelativePercentage
  | PercentChangeOverTime
  | Currency
  | Population
  | StringType
deriving DecidableEq

/-- The parts of an OwidColumnSpec that the verified operations read or
rewrite. -/
structure ColSpec where
  slug : String
  type : ColumnTypeNames
  name : Option String := none
  isDailyMeasurement : Bool := false
  owidVariableId : Option Nat := none
deriving DecidableEq

/-- Polymorphic association-list get, modelling property read on a
JavaScript object or Map.get. -/
def getA {κ β : Type} [DecidableEq κ] : List (κ × β) → κ → Option β
  | [], _ => none
  | (a, b) :: rest, k => if a = k then some b else getA rest k

/-- Polymorphic association-list set, modelling property write on a
JavaScript object or Map.set: an existing key is updated in place, a new
key is appended. -/
def setA {κ β : Type} [DecidableEq κ] : List (κ × β) → κ → β → List (κ × β)
  | [], k, v => [(k, v)]
  | (a, b) :: rest, k, v => if a = k then (a, v) :: rest else (a, b) :: setA rest k v

/-- An OwidRow: the reserved identity fields, the resolved time (the value
of the time column the table resolves for the row), the year/day fields as
written by legacy ingestion, and the value columns. -/
structure OwidRow where
  entityName : String
  entityCode : Option String := none
  entityId : Nat := 0
  time : Int
  year : Option Int := none
  day : Option Int := none
  vals : List (String × CellValue) := []
deriving DecidableEq

/-- Reading row[slug] for a value column: an absent property is undefined. -/
def getVal (r : OwidRow) (slug : String) : CellValue :=
  match getA r.vals slug with
  | some v => v
  | none => CellValue.undef

/-- Writing newRow[slug] = v for a value column. -/
def setVal (r : OwidRow) (slug : String) (v : CellValue) : OwidRow :=
  { r with vals := setA r.vals slug v }

/-- An OwidTable: the ordered row store, the column specs, and the mutable
selection state, modelled as the list of selected row indices in insertion
order.  Parent lineage references are diagnostics only and are not
modelled. -/
structure OwidTable where
  rows : List OwidRow
  specs : List ColSpec := []
  selection : List Nat := []
deriving DecidableEq

/-- Pair every element of a list with its index, starting at a given
offset.  Used to model identity-based row sets by row position. -/
def withIdx {α : Type} : Nat → List α → List (Nat × α)
  | _, [] => []
  | i, a :: rest => (i, a) :: withIdx (i + 1) rest

/-- Membership of a JavaScript Set of rows, modelled on indices. -/
def isSelected (t : OwidTable) (i : Nat) : Prop := i ∈ t.selection

instance (t : OwidTable) (i : Nat) : Decidable (isSelected t i) := by
  unfold isSelected
  infer_instance

/-- Modelled from the spec: the generic filterBy of the base table
(CoreTable.ts, not under src/) applies the predicate to every row in
original order, drops the rows that fail, keeps all column specs, and the
child table does not inherit the selection (spec section 3).  The
predicate also receives the row index so that the identity-based Set
predicates of OwidTable can be expressed. -/
def filterByIdx (t : OwidTable) (p : Nat → OwidRow → Bool) : OwidTable :=
  { rows := ((withIdx 0 t.rows).filter (fun pr => p pr.1 pr.2)).map Prod.snd,
    specs := t.specs,
    selection := [] }

/-- Deduplicate keeping the first occurrence of each element, modelling
Array.from(new Set(list)). -/
def dedupFirstAux {α : Type} [DecidableEq α] (seen : List α) : List α → List α
  | [] => []
  | a :: rest =>
    if a ∈ seen then dedupFirstAux seen rest
    else a :: dedupFirstAux (a :: seen) rest

/-- Deduplicate keeping first occurrences: Array.from(new Set(list)). -/
def dedupFirst {α : Type} [DecidableEq α] (l : List α) : List α :=
  dedupFirstAux [] l

/-- availableEntityNames: the distinct entity names of the rows, in first
occurrence order. -/
def availableEntityNames (t : OwidTable) : List String :=
  dedupFirst (t.rows.map (fun r => r.entityName))

/-- selectedEntityNames: the distinct entity names of the selected rows,
in selection insertion order. -/
def selectedEntityNames (t : OwidTable) : List String :=
  dedupFirst ((t.selection.filterMap (fun i => t.rows.get? i)).map (fun r => r.entityName))

/-- setSelectedEntities generalised to optional names, as produced by the
by-id variant (an unresolved id contributes the undefined value to the
name set).  Clears the selection, then selects every row whose entity name
is in the set. -/
def setSelectedEntitiesOpt (t : OwidTable) (onames : List (Option String)) : OwidTable :=
  { t with selection :=
      ((withIdx 0 t.rows).filter (fun p => decide (some p.2.entityName ∈ onames))).map Prod.fst }

/-- setSelectedEntities: clears and sets the selected entities. -/
def setSelectedEntities (t : OwidTable) (entityNames : List String) : OwidTable :=
  setSelectedEntitiesOpt t (entityNames.map some)

/-- copySelectionFrom: replace this selection with the selected entity
names of the other table, resolved against this table. -/
def copySelectionFrom (t other : OwidTable) : OwidTable :=
  setSelectedEntities t (selectedEntityNames other)

/-- filterBySelectedOnly: keep only the selected rows. -/
def filterBySelectedOnly (t : OwidTable) : OwidTable :=
  filterByIdx t (fun i _ => decide (isSelected t i))

/-- filterByPopulation: keep a row when its entity has no truthy population
in the static population map (absent, or 0), or the row is selected, or the
population reaches the threshold.  The population map is an external
reference collaborator and is passed as a parameter. -/
def filterByPopulation (popMap : String → Option ℚ) (t : OwidTable) (minPop : ℚ) : OwidTable :=
  filterByIdx t (fun i r =>
    match popMap r.entityName with
    | none => true
    | some p => decide (p = 0) || decide (isSelected t i) || decide (minPop ≤ p))

/-- Modelled from the spec: strict preference between two candidate times
for a target time, as used by findClosestTimeIndex (grapher/utils/Util,
not under src/).  A time is strictly better when its absolute distance to
the target is smaller, or the distances are equal and it is later. -/
def betterTime (targetTime a b : Int) : Bool :=
  decide ((a - targetTime).natAbs < (b - targetTime).natAbs) ||
    (decide ((a - targetTime).natAbs = (b - targetTime).natAbs) && decide (b < a))

/-- Modelled from the spec: choose the best candidate from an indexed list
of times, replacing the current best only on strict preference. -/
def pickClosest (targetTime : Int) : List (Nat × Int) → Option (Nat × Int)
  | [] => none
  | p :: rest =>
    match pickClosest targetTime rest with
    | none => some p
    | some q => if betterTime targetTime q.2 p.2 then some q else some p

/-- Modelled from the spec: findClosestTimeIndex (grapher/utils/Util, not
under src/) returns the index of the time closest to the target among the
times within tolerance (absolute difference at most tolerance), ties
broken in favor of the later time, or nothing when no time is within
tolerance. -/
def findClosestTimeIndex (times : List Int) (targetTime tolerance : Int) : Option Nat :=
  match pickClosest targetTime
      ((withIdx 0 times).filter (fun p => decide (((p.2 - targetTime).natAbs : Int) ≤ tolerance))) with
  | some q => some q.1
  | none => none

/-- rowsByEntityName.get(name): the rows of one entity, paired with their
indices in the table, in table order. -/
def entityGroup (t : OwidTable) (name : String) : List (Nat × OwidRow) :=
  (withIdx 0 t.rows).filter (fun p => decide (p.2.entityName = name))

/-- The per-entity best-match computation of filterByTargetTime: the index
of the row added to matchingRows for one entity name, if any. -/
def entityMatch (t : OwidTable) (targetTime tolerance : Int) (name : String) : Option Nat :=
  match findClosestTimeIndex ((entityGroup t name).map (fun p => p.2.time)) targetTime tolerance with
  | some j =>
    match (entityGroup t name).get? j with
    | some p => some p.1
    | none => none
  | none => none

/-- The matchingRows set of filterByTargetTime, as row indices. -/
def matchingIndices (t : OwidTable) (targetTime tolerance : Int) : List Nat :=
  (availableEntityNames t).filterMap (entityMatch t targetTime tolerance)

/-- filterByTargetTime: for every available entity find the row closest to
the target time within tolerance, and keep exactly the rows so matched. -/
def filterByTargetTime (t : OwidTable) (targetTime tolerance : Int) : OwidTable :=
  filterByIdx t (fun i _ => decide (i ∈ matchingIndices t targetTime tolerance))

/-- getClosestRowForEachSelectedEntity: for each selected entity name look
up its rows and the closest time index; the source returns
rowIndex ? rows[rowIndex] : null, so a best match at index 0 is dropped
like an absent one (the embedding reproduces this faithfully). -/
def getClosestRowForEachSelectedEntity (t : OwidTable) (targetTime tolerance : Int) : List OwidRow :=
  (selectedEntityNames t).filterMap (fun name =>
    let rows := t.rows.filter (fun r => decide (r.entityName = name))
    if rows.isEmpty then none
    else
      match findClosestTimeIndex (rows.map (fun r => r.time)) targetTime tolerance with
      | some rowIndex => if rowIndex = 0 then none else rows.get? rowIndex
      | none => none)

/-- toPercentageFromEachEntityForEachTime: rewrite the slug column spec to
the Percentage type and replace each row value of that column by
100 * value divided by the sum of the column over the rows sharing the
row time (rowsByTime.get of the row time). -/
def toPercentageFromEachEntityForEachTime (t : OwidTable) (columnSlug : String) : OwidTable :=
  { rows := t.rows.map (fun row =>
      setVal row columnSlug
        (jsDiv (jsMul100 (getVal row columnSlug))
          (jsSum ((t.rows.filter (fun r2 => decide (r2.time = row.time))).map
            (fun r2 => getVal r2 columnSlug))))),
    specs := t.specs.map (fun spec =>
      if spec.slug = columnSlug then { spec with type := ColumnTypeNames.Percentage } else spec),
    selection := [] }

/-- Modelled from the spec: the column index valueByEntityNameAndTime
(CoreTable.ts, not under src/) records, for each row where the column
value is present, the value keyed by entity name and then resolved time;
on two rows with the same entity and time the last one encountered wins. -/
def valueByEntityNameAndTime (t : OwidTable) (slug : String) (name : String) (time : Int) :
    Option CellValue :=
  match (t.rows.filter (fun r =>
      decide (r.entityName = name) && decide (r.time = time) &&
        !(decide (getVal r slug = CellValue.undef)))).getLast? with
  | some r => some (getVal r slug)
  | none => none

/-- JavaScript typeof v === number for a cell value. -/
def isJsNumber : CellValue → Bool
  | CellValue.num _ => true
  | CellValue.nan => true
  | CellValue.inf => true
  | CellValue.neginf => true
  | CellValue.str _ => false
  | CellValue.undef => false

/-- toTotalGrowthForEachColumnComparedToStartTime: rewrite the listed
column specs to the PercentChangeOverTime type; in each row, for each
listed slug, set the value to -100 + 100 * value / comparisonValue where
comparisonValue is the entity value of that column at the start time, or
to undefined when that comparison value is not a number. -/
def toTotalGrowthForEachColumnComparedToStartTime
    (t : OwidTable) (startTime : Int) (columnSlugs : List String) : OwidTable :=
  { rows := t.rows.map (fun row =>
      columnSlugs.foldl (fun newRow slug =>
        setVal newRow slug
          (match valueByEntityNameAndTime t slug row.entityName startTime with
          | some comparisonValue =>
            if isJsNumber comparisonValue then
              jsAdd (CellValue.num (-100)) (jsDiv (jsMul100 (getVal row slug)) comparisonValue)
            else CellValue.undef
          | none => CellValue.undef)) row),
    specs := t.specs.map (fun spec =>
      if columnSlugs.contains spec.slug then
        { spec with type := ColumnTypeNames.PercentChangeOverTime }
      else spec),
    selection := [] }

/-- entityCodeToNameMap: map each truthy entity code to the entity name;
rows with a falsy code (absent or empty) map their name to itself. -/
def entityCodeToNameMap (t : OwidTable) : List (String × String) :=
  t.rows.foldl (fun m r =>
    match r.entityCode with
    | some c => if c = "" then setA m r.entityName r.entityName else setA m c r.entityName
    | none => setA m r.entityName r.entityName) []

/-- entityIdToNameMap: map each entity id to its name, later rows win. -/
def entityIdToNameMap (t : OwidTable) : List (Nat × String) :=
  t.rows.foldl (fun m r => setA m r.entityId r.entityName) []

/-- The dynamically typed JavaScript return value of the selection
mutators: setSelectedEntities (and hence the by-id variant) returns the
table itself, while the by-code variant returns the array of codes found
in the data. -/
inductive SelReturn where
  | retTable
  | retCodes (codes : List String)
  | retIds (ids : List Nat)
deriving DecidableEq

/-- setSelectedEntitiesByCode: resolve codes through entityCodeToNameMap,
select the resolved names, and return the codes that were found.  The
first component is the table after the mutation, the second the JavaScript
return value. -/
def setSelectedEntitiesByCode (t : OwidTable) (entityCodes : List String) :
    OwidTable × SelReturn :=
  let m := entityCodeToNameMap t
  let codesInData := entityCodes.filter (fun code => (getA m code).isSome)
  (setSelectedEntities t (codesInData.filterMap (fun code => getA m code)),
    SelReturn.retCodes codesInData)

/-- setSelectedEntitiesByEntityId: map the ids through entityIdToNameMap
(an unknown id yields the undefined name, which matches no row) and return
the result of setSelectedEntities, which is the table itself. -/
def setSelectedEntitiesByEntityId (t : OwidTable) (entityIds : List Nat) :
    OwidTable × SelReturn :=
  (setSelectedEntitiesOpt t (entityIds.map (fun id => getA (entityIdToNameMap t) id)),
    SelReturn.retTable)

/-- Legacy entity metadata: entityKey values of the wire payload. -/
structure LegacyEntityMeta where
  name : String
  code : Option String := none
deriving DecidableEq

/-- The display metadata of a legacy variable that legacy ingestion reads. -/
structure LegacyDisplayConfig where
  yearIsDay : Option Bool := none
  zeroDay : Option String := none
  conversionFactor : Option ℚ := none
  entityAnnotationsMap : Option String := none
deriving DecidableEq

/-- A legacy variable of the wire payload: parallel arrays of values,
entity ids and years, plus metadata. -/
structure LegacyVariableConfig where
  id : Nat
  name : Option String := none
  entities : Option (List Nat) := none
  values : Option (List CellValue) := none
  years : Option (List Int) := none
  display : Option LegacyDisplayConfig := none
deriving DecidableEq

/-- The wire payload: the variables (in object insertion order, as a
field named variableList because variables is reserved in Lean) and the
entity id metadata map. -/
structure LegacyVariablesAndEntityKey where
  variableList : List LegacyVariableConfig
  entityKey : List (Nat × LegacyEntityMeta)
deriving DecidableEq

/-- The errors legacy ingestion can raise.  The source only ever throws
generic JavaScript type errors (reading a property of undefined); the
referentialIntegrity constructor exists to state what the specification
asks for, and is never produced. -/
inductive IngestError where
  | typeError (message : String)
  | referentialIntegrity (entityId : Nat) (variableId : Nat)
deriving DecidableEq

/-- Modelled from the spec: the canonical epoch date constant EPOCH_DATE
(grapher/core/GrapherConstants, not under src/). -/
def EPOCH_DATE : String := "2020-01-21"

/-- Except-valued map over a list, written out so that its equations are
directly usable in proofs. -/
def mapME {α β : Type} (f : α → Except IngestError β) : List α → Except IngestError (List β)
  | [] => Except.ok []
  | a :: rest =>
    match f a with
    | Except.error e => Except.error e
    | Except.ok b =>
      match mapME f rest with
      | Except.error e => Except.error e
      | Except.ok bs => Except.ok (b :: bs)

/-- entityMetaById lookup. -/
def lookupEntityMeta (entityKey : List (Nat × LegacyEntityMeta)) (id : Nat) :
    Option LegacyEntityMeta :=
  getA entityKey id

/-- The variable.entities.map(id => entityMetaById[id].name) step: reading
name of an absent metadata record throws a type error. -/
def entityNamesOf (entityKey : List (Nat × LegacyEntityMeta)) (v : LegacyVariableConfig) :
    Except IngestError (List String) :=
  match v.entities with
  | none => Except.ok []
  | some ids => mapME (fun id =>
      match lookupEntityMeta entityKey id with
      | some meta => Except.ok meta.name
      | none => Except.error (IngestError.typeError "cannot read name of undefined")) ids

/-- The variable.entities.map(id => entityMetaById[id].code) step. -/
def entityCodesOf (entityKey : List (Nat × LegacyEntityMeta)) (v : LegacyVariableConfig) :
    Except IngestError (List (Option String)) :=
  match v.entities with
  | none => Except.ok []
  | some ids => mapME (fun id =>
      match lookupEntityMeta entityKey id with
      | some meta => Except.ok meta.code
      | none => Except.error (IngestError.typeError "cannot read code of undefined")) ids

/-- columnSpecFromLegacyVariable: slug is the variable id, variable 123 is
renamed Continent, the type is Numeric, and isDailyMeasurement mirrors the
truthiness of display.yearIsDay. -/
def columnSpecFromLegacyVariable (v : LegacyVariableConfig) : ColSpec :=
  { slug := toString v.id,
    name := if v.id = 123 then some "Continent" else v.name,
    type := ColumnTypeNames.Numeric,
    isDailyMeasurement :=
      match v.display with
      | some d => decide (d.yearIsDay = some true)
      | none => false,
    owidVariableId := some v.id }

/-- annotationsToMap: split each line at the first colon, trim key and
text, later lines with the same key win. -/
def annotationsToMap (annotations : String) : List (String × String) :=
  (annotations.splitOn ("\n")).foldl (fun m line =>
    match line.splitOn (":") with
    | [] => m
    | key :: words => setA m key.trim (String.intercalate (":") words).trim) []

/-- convertLegacyYears: shift day values by the signed day difference
between the variable zero day and the canonical epoch.  The day difference
function diffDateISOStringInDays lives in grapher/utils/Util (not under
src/) and is passed as a parameter. -/
def convertLegacyYears (diffDays : String → String → Int) (years : List Int) (zeroDay : String) :
    List Int :=
  years.map (fun y => y + diffDays zeroDay EPOCH_DATE)

/-- The yearsNeedTransform test: display is present, yearIsDay is truthy,
and zeroDay is present and differs from the canonical epoch. -/
def yearsNeedTransform (v : LegacyVariableConfig) : Bool :=
  match v.display with
  | some d =>
    decide (d.yearIsDay = some true) && !(decide (d.zeroDay = none)) &&
      !(decide (d.zeroDay = some EPOCH_DATE))
  | none => false

/-- The years array after the optional zero-day normalisation. -/
def transformedYears (diffDays : String → String → Int) (v : LegacyVariableConfig) : List Int :=
  let yearsRaw := match v.years with | some ys => ys | none => []
  if yearsNeedTransform v then
    match v.display with
    | some d =>
      match d.zeroDay with
      | some z => convertLegacyYears diffDays yearsRaw z
      | none => yearsRaw
    | none => yearsRaw
  else yearsRaw

/-- The annotation column of a variable, when display.entityAnnotationsMap
is present: the annotation slug and the parsed annotation map. -/
def annotationPartOf (v : LegacyVariableConfig) : Option (String × List (String × String)) :=
  match v.display with
  | some d =>
    match d.entityAnnotationsMap with
    | some ann => some (toString v.id ++ "-annotations", annotationsToMap ann)
    | none => none
  | none => none

/-- Build the proto-row of one observation (one index into the parallel
arrays) of one variable.  Out-of-range reads of the parallel arrays (a
malformed payload, excluded by the interface contract) are modelled with
the undefined marker name, id 0 and time 0. -/
def legacyRowAt (columnSlug : String) (isDaily : Bool)
    (entityNames : List String) (entityCodes : List (Option String))
    (entities : List Nat) (years : List Int)
    (annotationPart : Option (String × List (String × String)))
    (index : Nat) (value : CellValue) : OwidRow :=
  let entityName := match entityNames.get? index with | some n => n | none => "undefined"
  let time := match years.get? index with | some y => y | none => 0
  { entityName := entityName,
    entityCode := match entityCodes.get? index with | some c => c | none => none,
    entityId := match entities.get? index with | some i => i | none => 0,
    time := time,
    year := if isDaily then none else some time,
    day := if isDaily then some time else none,
    vals := [(columnSlug, value)] ++
      (match annotationPart with
      | some (annSlug, annMap) =>
        [(annSlug, match getA annMap entityName with
          | some s => CellValue.str s
          | none => CellValue.undef)]
      | none => []) }

/-- The column spec updates (Map.set calls) performed for one variable:
the day or year time column, the value column, and the annotation column
when present. -/
def specUpdatesOf (v : LegacyVariableConfig) : List (String × ColSpec) :=
  let columnSpec := columnSpecFromLegacyVariable v
  (if columnSpec.isDailyMeasurement then
    [("day", { slug := "day", type := ColumnTypeNames.Date, name := some "Date" })]
  else
    [("year", { slug := "year", type := ColumnTypeNames.Year, name := some "Year" })]) ++
  [(columnSpec.slug, columnSpec)] ++
  (match annotationPartOf v with
  | some (annSlug, _) =>
    [(annSlug,
      { slug := annSlug, type := ColumnTypeNames.StringType,
        name := some ((match columnSpec.name with
          | some n => n
          | none => "undefined") ++ " Annotations") })]
  | none => [])

/-- Process one legacy variable: resolve entity names and codes through
the metadata map (throwing on an absent id), then build one proto-row per
value. -/
def processLegacyVariable (entityKey : List (Nat × LegacyEntityMeta))
    (diffDays : String → String → Int) (v : LegacyVariableConfig) :
    Except IngestError (List OwidRow × List (String × ColSpec)) :=
  match entityNamesOf entityKey v with
  | Except.error e => Except.error e
  | Except.ok entityNames =>
    match entityCodesOf entityKey v with
    | Except.error e => Except.error e
    | Except.ok entityCodes =>
      let columnSpec := columnSpecFromLegacyVariable v
      let values := match v.values with | some vs => vs | none => []
      let entities := match v.entities with | some es => es | none => []
      let years := transformedYears diffDays v
      let newRows := (withIdx 0 values).map (fun p =>
        legacyRowAt columnSpec.slug columnSpec.isDailyMeasurement entityNames entityCodes
          entities years (annotationPartOf v) p.1 p.2)
      Except.ok (newRows, specUpdatesOf v)

/-- The required OWID column specs, applied to the spec map first. -/
def requiredColumnSpecPairs : List (String × ColSpec) :=
  [("entityName", { slug := "entityName", name := some "Entity", type := ColumnTypeNames.Categorical }),
    ("entityId", { slug := "entityId", type := ColumnTypeNames.Categorical }),
    ("entityCode", { slug := "entityCode", name := some "Code", type := ColumnTypeNames.Categorical })]

/-- Apply a batch of Map.set updates to the spec map. -/
def applySpecUpdates (m : List (String × ColSpec)) (upd : List (String × ColSpec)) :
    List (String × ColSpec) :=
  upd.foldl (fun acc p => setA acc p.1 p.2) m

/-- The variable loop of legacyVariablesToTabular: concatenate the
proto-rows of every variable and accumulate the column spec map, stopping
at the first error. -/
def foldLegacyVariables (entityKey : List (Nat × LegacyEntityMeta))
    (diffDays : String → String → Int) :
    List LegacyVariableConfig → List OwidRow × List (String × ColSpec) →
    Except IngestError (List OwidRow × List (String × ColSpec))
  | [], acc => Except.ok acc
  | v :: rest, acc =>
    match processLegacyVariable entityKey diffDays v with
    | Except.error e => Except.error e
    | Except.ok (newRows, upd) =>
      foldLegacyVariables entityKey diffDays rest (acc.1 ++ newRows, applySpecUpdates acc.2 upd)

/-- The group key of the join: time kind and value plus the entity name. -/
def groupKeyOf (r : OwidRow) : String :=
  (match r.year with
  | some y => "year:" ++ toString y
  | none => "day:" ++ (match r.day with | some d => toString d | none => "undefined")) ++
    " " ++ r.entityName

/-- Object.assign of two proto-rows: the later row wins on every own
property; year and day fall back to the earlier row when the later row
does not carry them. -/
def mergeRow (a b : OwidRow) : OwidRow :=
  { entityName := b.entityName,
    entityCode := b.entityCode,
    entityId := b.entityId,
    time := b.time,
    year := match b.year with | some y => some y | none => a.year,
    day := match b.day with | some d => some d | none => a.day,
    vals := b.vals.foldl (fun m p => setA m p.1 p.2) a.vals }

/-- A default row, used only for the unreachable empty-group case. -/
def defaultOwidRow : OwidRow := { entityName := "", time := 0 }

/-- Merge one group of proto-rows into one joined row. -/
def mergeRows : List OwidRow → OwidRow
  | [] => defaultOwidRow
  | r :: rest => rest.foldl mergeRow r

/-- Ascending comparison on an optional integer sort key; absent keys sort
last, as in the lodash sortBy comparer. -/
def optIntLe : Option Int → Option Int → Bool
  | some a, some b => decide (a ≤ b)
  | some _, none => true
  | none, some _ => false
  | none, none => true

/-- Strict version of optIntLe. -/
def optIntLt : Option Int → Option Int → Bool
  | some a, some b => decide (a < b)
  | some _, none => true
  | none, _ => false

/-- The (year, day) ascending row order of the final sortBy. -/
def rowOrderLe (a b : OwidRow) : Bool :=
  if a.year = b.year then optIntLe a.day b.day else optIntLt a.year b.year

/-- Stable insertion: a new row goes after every row that is less than or
equal to it. -/
def insertRow (r : OwidRow) : List OwidRow → List OwidRow
  | [] => [r]
  | a :: rest => if rowOrderLe a r then a :: insertRow r rest else r :: a :: rest

/-- Stable sort of the joined rows by (year, day) ascending. -/
def sortRows (l : List OwidRow) : List OwidRow :=
  l.foldl (fun acc r => insertRow r acc) []

/-- legacyVariablesToTabular: run the variable loop, group the proto-rows
by (time kind and value, entity name), merge each group with later
variables winning, and sort by (year, day). -/
def legacyVariablesToTabular (diffDays : String → String → Int)
    (json : LegacyVariablesAndEntityKey) :
    Except IngestError (List OwidRow × List (String × ColSpec)) :=
  match foldLegacyVariables json.entityKey diffDays json.variableList ([], requiredColumnSpecPairs) with
  | Except.error e => Except.error e
  | Except.ok (rows, columnSpecs) =>
    let keys := dedupFirst (rows.map groupKeyOf)
    let joinedRows := keys.map (fun k => mergeRows (rows.filter (fun r => decide (groupKeyOf r = k))))
    Except.ok (sortRows joinedRows, columnSpecs)

theorem mem_withIdx {α : Type} {l : List α} {start : Nat} {p : Nat × α} :
    p ∈ withIdx start l ↔ ∃ j, l.get? j = some p.2 ∧ p.1 = start + j := by
  induction l generalizing start with
  | nil => simp [withIdx]
  | cons a rest ih =>
    simp only [withIdx, List.mem_cons, ih]
    constructor
    · rintro (rfl | ⟨j, hj, hp⟩)
      · exact ⟨0, by simp, by simp⟩
      · exact ⟨j + 1, by simpa using hj, by omega⟩
    · rintro ⟨j, hj, hp⟩
      cases j with
      | zero =>
        left
        simp only [List.get?_cons_zero, Option.some.injEq] at hj
        obtain ⟨i, x⟩ := p
        simp_all
      | succ j =>
        right
        exact ⟨j, by simpa using hj, by omega⟩

theorem pairwise_fst_lt_withIdx {α : Type} (l : List α) (start : Nat) :
    (withIdx start l).Pairwise (fun p q => p.1 < q.1) := by
  induction l generalizing start with
  | nil => simp [withIdx]
  | cons a rest ih =>
    refine List.Pairwise.cons ?_ (ih (start + 1))
    intro q hq
    obtain ⟨j, -, hj⟩ := mem_withIdx.mp hq
    omega

theorem get?_eq_of_mem_withIdx {α : Type} {l : List α} {p : Nat × α}
    (h : p ∈ withIdx 0 l) : l.get? p.1 = some p.2 := by
  obtain ⟨j, hj, hp⟩ := mem_withIdx.mp h
  simpa [hp] using hj

theorem mem_withIdx_of_get? {α : Type} {l : List α} {i : Nat} {a : α}
    (h : l.get? i = some a) : (i, a) ∈ withIdx 0 l :=
  mem_withIdx.mpr ⟨i, h, by omega⟩

theorem mem_dedupFirstAux {α : Type} [DecidableEq α] {l : List α} {seen : List α} {x : α} :
    x ∈ dedupFirstAux seen l ↔ x ∈ l ∧ x ∉ seen := by
  induction l generalizing seen with
  | nil => simp [dedupFirstAux]
  | cons a rest ih =>
    by_cases hxa : x = a
    · subst hxa
      by_cases ha : x ∈ seen <;>
        simp only [dedupFirstAux, List.mem_cons, ha, if_pos, if_neg, not_false_eq_true, ih] <;>
        tauto
    · by_cases ha : a ∈ seen <;>
        simp only [dedupFirstAux, List.mem_cons, ha, if_pos, if_neg, not_false_eq_true, ih] <;>
        tauto

theorem mem_dedupFirst {α : Type} [DecidableEq α] {l : List α} {x : α} :
    x ∈ dedupFirst l ↔ x ∈ l := by
  simp [dedupFirst, mem_dedupFirstAux]

theorem getA_setA_self {κ β : Type} [DecidableEq κ] (m : List (κ × β)) (k : κ) (v : β) :
    getA (setA m k v) k = some v := by
  induction m with
  | nil => simp [setA, getA]
  | cons p rest ih =>
    obtain ⟨a, b⟩ := p
    by_cases hak : a = k
    · simp [setA, getA, hak]
    · simp [setA, getA, hak, ih]

theorem getA_setA_ne {κ β : Type} [DecidableEq κ] (m : List (κ × β)) (k k2 : κ) (v : β)
    (h : k ≠ k2) : getA (setA m k v) k2 = getA m k2 := by
  induction m with
  | nil => simp [setA, getA, h]
  | cons p rest ih =>
    obtain ⟨a, b⟩ := p
    by_cases hak : a = k
    · subst hak
      simp [setA, getA, h]
    · by_cases hak2 : a = k2
      · subst hak2
        simp [setA, getA, hak]
      · simp [setA, getA, hak, hak2, ih]

theorem getVal_setVal_self (r : OwidRow) (slug : String) (v : CellValue) :
    getVal (setVal r slug v) slug = v := by
  simp [getVal, setVal, getA_setA_self]

theorem getVal_setVal_ne (r : OwidRow) (slug slug2 : String) (v : CellValue)
    (h : slug ≠ slug2) : getVal (setVal r slug v) slug2 = getVal r slug2 := by
  simp [getVal, setVal, getA_setA_ne _ _ _ _ h]

theorem setVal_entityName (r : OwidRow) (slug : String) (v : CellValue) :
    (setVal r slug v).entityName = r.entityName := rfl

theorem setVal_time (r : OwidRow) (slug : String) (v : CellValue) :
    (setVal r slug v).time = r.time := rfl

theorem betterTime_irrefl (targetTime a : Int) : betterTime targetTime a a = false := by
  simp [betterTime]

theorem betterTime_asymm {targetTime a b : Int} (h : betterTime targetTime a b = true) :
    betterTime targetTime b a = false := by
  simp only [betterTime, Bool.or_eq_true, Bool.and_eq_true, decide_eq_true_eq,
    Bool.or_eq_false_iff, Bool.and_eq_false_iff, decide_eq_false_iff_not] at h ⊢
  omega

theorem betterTime_negTrans {targetTime x q p : Int}
    (h1 : betterTime targetTime x q = false) (h2 : betterTime targetTime q p = false) :
    betterTime targetTime x p = false := by
  simp only [betterTime, Bool.or_eq_false_iff, Bool.and_eq_false_iff,
    decide_eq_false_iff_not] at h1 h2 ⊢
  omega

theorem pickClosest_eq_none {targetTime : Int} {l : List (Nat × Int)} :
    pickClosest targetTime l = none ↔ l = [] := by
  cases l with
  | nil => simp [pickClosest]
  | cons p rest =>
    simp only [pickClosest]
    cases pickClosest targetTime rest with
    | none => simp
    | some q =>
      by_cases hb : betterTime targetTime q.2 p.2 <;> simp [hb]

theorem pickClosest_mem {targetTime : Int} {l : List (Nat × Int)} {q : Nat × Int}
    (h : pickClosest targetTime l = some q) : q ∈ l := by
  induction l with
  | nil => simp [pickClosest] at h
  | cons p rest ih =>
    simp only [pickClosest] at h
    cases hr : pickClosest targetTime rest with
    | none =>
      simp only [hr] at h
      simp only [Option.some.injEq] at h
      exact h ▸ List.mem_cons_self p rest
    | some q0 =>
      simp only [hr] at h
      by_cases hb : betterTime targetTime q0.2 p.2
      · rw [if_pos hb] at h
        simp only [Option.some.injEq] at h
        subst h
        exact List.mem_cons_of_mem p (ih hr)
      · rw [if_neg hb] at h
        simp only [Option.some.injEq] at h
        subst h
        exact List.mem_cons_self p rest

theorem pickClosest_not_better {targetTime : Int} : ∀ {l : List (Nat × Int)} {q : Nat × Int},
    pickClosest targetTime l = some q → ∀ p ∈ l, betterTime targetTime p.2 q.2 = false := by
  intro l
  induction l with
  | nil => intro q h; simp [pickClosest] at h
  | cons p0 rest ih =>
    intro q h p hp
    simp only [pickClosest] at h
    cases hr : pickClosest targetTime rest with
    | none =>
      simp only [hr] at h
      simp only [Option.some.injEq] at h
      subst h
      rcases List.mem_cons.mp hp with rfl | hmem
      · exact betterTime_irrefl targetTime p.2
      · rw [pickClosest_eq_none.mp hr] at hmem
        simp at hmem
    | some q0 =>
      simp only [hr] at h
      by_cases hb : betterTime targetTime q0.2 p0.2
      · rw [if_pos hb] at h
        simp only [Option.some.injEq] at h
        subst h
        rcases List.mem_cons.mp hp with rfl | hmem
        · exact betterTime_asymm hb
        · exact ih hr p hmem
      · rw [if_neg hb] at h
        simp only [Option.some.injEq] at h
        subst h
        rcases List.mem_cons.mp hp with rfl | hmem
        · exact betterTime_irrefl targetTime p.2
        · exact betterTime_negTrans (ih hr p hmem) (by simpa using hb)

theorem findClosestTimeIndex_some {times : List Int} {targetTime tolerance : Int} {j : Nat}
    (h : findClosestTimeIndex times targetTime tolerance = some j) :
    ∃ tm, times.get? j = some tm ∧ ((tm - targetTime).natAbs : Int) ≤ tolerance ∧
      ∀ j2 tm2, times.get? j2 = some tm2 → ((tm2 - targetTime).natAbs : Int) ≤ tolerance →
        betterTime targetTime tm2 tm = false := by
  unfold findClosestTimeIndex at h
  cases hq : pickClosest targetTime
      ((withIdx 0 times).filter (fun p => decide (((p.2 - targetTime).natAbs : Int) ≤ tolerance))) with
  | none => rw [hq] at h; simp at h
  | some q =>
    rw [hq] at h
    simp only [Option.some.injEq] at h
    subst h
    have hmem := pickClosest_mem hq
    have hfilter := List.mem_filter.mp hmem
    have hwi : times.get? q.1 = some q.2 := get?_eq_of_mem_withIdx hfilter.1
    have htol : ((q.2 - targetTime).natAbs : Int) ≤ tolerance := by
      have := hfilter.2
      simpa using this
    refine ⟨q.2, hwi, htol, ?_⟩
    intro j2 tm2 hj2 htol2
    have hmem2 : (j2, tm2) ∈ (withIdx 0 times).filter
        (fun p => decide (((p.2 - targetTime).natAbs : Int) ≤ tolerance)) := by
      refine List.mem_filter.mpr ⟨mem_withIdx_of_get? hj2, by simpa using htol2⟩
    exact pickClosest_not_better hq (j2, tm2) hmem2

theorem findClosestTimeIndex_none {times : List Int} {targetTime tolerance : Int}
    (h : findClosestTimeIndex times targetTime tolerance = none) :
    ∀ j tm, times.get? j = some tm → ¬ (((tm - targetTime).natAbs : Int) ≤ tolerance) := by
  intro j tm hj htol
  unfold findClosestTimeIndex at h
  cases hq : pickClosest targetTime
      ((withIdx 0 times).filter (fun p => decide (((p.2 - targetTime).natAbs : Int) ≤ tolerance))) with
  | some q => rw [hq] at h; simp at h
  | none =>
    have hempty := pickClosest_eq_none.mp hq
    have hmem2 : (j, tm) ∈ (withIdx 0 times).filter
        (fun p => decide (((p.2 - targetTime).natAbs : Int) ≤ tolerance)) :=
      List.mem_filter.mpr ⟨mem_withIdx_of_get? hj, by simpa using htol⟩
    rw [hempty] at hmem2
    simp at hmem2

theorem entityMatch_spec {t : OwidTable} {targetTime tolerance : Int} {name : String} {i : Nat}
    (h : entityMatch t targetTime tolerance name = some i) :
    ∃ r, t.rows.get? i = some r ∧ r.entityName = name ∧
      ((r.time - targetTime).natAbs : Int) ≤ tolerance ∧
      ∀ i2 r2, t.rows.get? i2 = some r2 → r2.entityName = name →
        ((r2.time - targetTime).natAbs : Int) ≤ tolerance →
        betterTime targetTime r2.time r.time = false := by
  unfold entityMatch at h
  cases hf : findClosestTimeIndex ((entityGroup t name).map (fun p => p.2.time))
      targetTime tolerance with
  | none => rw [hf] at h; simp at h
  | some j =>
    simp only [hf] at h
    cases hg : (entityGroup t name).get? j with
    | none => exact Option.noConfusion (hg ▸ h)
    | some p =>
      simp only [hg, Option.some.injEq] at h
      subst h
      obtain ⟨tm, htm, htol, hopt⟩ := findClosestTimeIndex_some hf
      have htm2 : tm = p.2.time := by
        rw [List.get?_map, hg] at htm
        simp only [Option.map_some', Option.some.injEq] at htm
        omega
      subst htm2
      have hpmem : p ∈ entityGroup t name := List.get?_mem hg
      have hpfilter := List.mem_filter.mp hpmem
      have hpname : p.2.entityName = name := by simpa using hpfilter.2
      refine ⟨p.2, get?_eq_of_mem_withIdx hpfilter.1, hpname, htol, ?_⟩
      intro i2 r2 hi2 hname2 htol2
      have hmemg : (i2, r2) ∈ entityGroup t name :=
        List.mem_filter.mpr ⟨mem_withIdx_of_get? hi2, by simpa using hname2⟩
      obtain ⟨j2, hj2⟩ := List.get?_of_mem hmemg
      have : ((entityGroup t name).map (fun p => p.2.time)).get? j2 = some r2.time := by
        rw [List.get?_map, hj2]
        rfl
      exact hopt j2 r2.time this htol2

theorem matchingIndices_name {t : OwidTable} {targetTime tolerance : Int} {i : Nat} {r : OwidRow}
    (h : i ∈ matchingIndices t targetTime tolerance) (hr : t.rows.get? i = some r) :
    entityMatch t targetTime tolerance r.entityName = some i := by
  obtain ⟨name, -, hm⟩ := List.mem_filterMap.mp h
  obtain ⟨r0, hr0, hname, -, -⟩ := entityMatch_spec hm
  rw [hr] at hr0
  simp only [Option.some.injEq] at hr0
  subst hr0
  exact hname ▸ hm

theorem matchingIndices_unique {t : OwidTable} {targetTime tolerance : Int}
    {i1 i2 : Nat} {r1 r2 : OwidRow}
    (h1 : i1 ∈ matchingIndices t targetTime tolerance)
    (h2 : i2 ∈ matchingIndices t targetTime tolerance)
    (hr1 : t.rows.get? i1 = some r1) (hr2 : t.rows.get? i2 = some r2)
    (hname : r1.entityName = r2.entityName) : i1 = i2 := by
  have hm1 := matchingIndices_name h1 hr1
  have hm2 := matchingIndices_name h2 hr2
  rw [hname] at hm1
  rw [hm1] at hm2
  simpa using hm2

theorem mem_filterByIdx {t : OwidTable} {p : Nat → OwidRow → Bool} {r : OwidRow} :
    r ∈ (filterByIdx t p).rows ↔ ∃ i, t.rows.get? i = some r ∧ p i r = true := by
  simp only [filterByIdx, List.mem_map, List.mem_filter]
  constructor
  · rintro ⟨a, ⟨hwi, hp⟩, rfl⟩
    exact ⟨a.1, get?_eq_of_mem_withIdx hwi, hp⟩
  · rintro ⟨i, hi, hp⟩
    exact ⟨(i, r), ⟨mem_withIdx_of_get? hi, hp⟩, rfl⟩

/-- C1: filterByTargetTime keeps at most one row per entity name, every
kept row is within tolerance of the target time, a kept row is at least as
close to the target as any row of the same entity within tolerance with
ties going to the later time, and an entity with no row within tolerance
contributes no row. -/
theorem filterByTargetTime_correct (t : OwidTable) (targetTime tolerance : Int) :
    ((filterByTargetTime t targetTime tolerance).rows.Pairwise
      (fun a b => a.entityName ≠ b.entityName)) ∧
    (∀ r ∈ (filterByTargetTime t targetTime tolerance).rows,
      ((r.time - targetTime).natAbs : Int) ≤ tolerance) ∧
    (∀ r ∈ (filterByTargetTime t targetTime tolerance).rows, ∀ r2 ∈ t.rows,
      r2.entityName = r.entityName → ((r2.time - targetTime).natAbs : Int) ≤ tolerance →
      ((r.time - targetTime).natAbs < (r2.time - targetTime).natAbs ∨
        ((r.time - targetTime).natAbs = (r2.time - targetTime).natAbs ∧ r2.time ≤ r.time))) ∧
    (∀ e : String,
      (∀ r2 ∈ t.rows, r2.entityName = e → ¬ (((r2.time - targetTime).natAbs : Int) ≤ tolerance)) →
      ∀ r ∈ (filterByTargetTime t targetTime tolerance).rows, r.entityName ≠ e) := by
  have hkept : ∀ r ∈ (filterByTargetTime t targetTime tolerance).rows,
      ∃ i, t.rows.get? i = some r ∧ i ∈ matchingIndices t targetTime tolerance := by
    intro r hr
    obtain ⟨i, hi, hp⟩ := mem_filterByIdx.mp hr
    exact ⟨i, hi, by simpa using hp⟩
  refine ⟨?_, ?_, ?_, ?_⟩
  · unfold filterByTargetTime filterByIdx
    simp only [List.pairwise_map]
    refine List.Pairwise.imp_of_mem ?_
      (List.Pairwise.sublist (List.filter_sublist _) (pairwise_fst_lt_withIdx t.rows 0))
    intro a b ha hb hlt hnameeq
    have ha2 := List.mem_filter.mp ha
    have hb2 := List.mem_filter.mp hb
    have haidx : a.1 ∈ matchingIndices t targetTime tolerance := by simpa using ha2.2
    have hbidx : b.1 ∈ matchingIndices t targetTime tolerance := by simpa using hb2.2
    have := matchingIndices_unique haidx hbidx
      (get?_eq_of_mem_withIdx ha2.1) (get?_eq_of_mem_withIdx hb2.1) hnameeq
    omega
  · intro r hr
    obtain ⟨i, hi, hidx⟩ := hkept r hr
    obtain ⟨name, -, hm⟩ := List.mem_filterMap.mp hidx
    obtain ⟨r0, hr0, -, htol, -⟩ := entityMatch_spec hm
    rw [hi] at hr0
    simp only [Option.some.injEq] at hr0
    subst hr0
    exact htol
  · intro r hr r2 hr2 hname htol2
    obtain ⟨i, hi, hidx⟩ := hkept r hr
    have hm := matchingIndices_name hidx hi
    obtain ⟨r0, hr0, -, -, hopt⟩ := entityMatch_spec hm
    rw [hi] at hr0
    simp only [Option.some.injEq] at hr0
    subst hr0
    obtain ⟨i2, hi2⟩ := List.get?_of_mem hr2
    have := hopt i2 r2 hi2 hname htol2
    simp only [betterTime, Bool.or_eq_false_iff, Bool.and_eq_false_iff,
      decide_eq_false_iff_not] at this
    omega
  · intro e he r hr hre
    obtain ⟨i, hi, hidx⟩ := hkept r hr
    obtain ⟨name, -, hm⟩ := List.mem_filterMap.mp hidx
    obtain ⟨r0, hr0, -, htol, -⟩ := entityMatch_spec hm
    rw [hi] at hr0
    simp only [Option.some.injEq] at hr0
    subst hr0
    exact he r (List.get?_mem hi) hre htol

/-- A concrete table for the C1 witness: one entity with two equidistant
candidate times and one entity with no time near the target. -/
def c1Row1 : OwidRow := { entityName := "France", time := 1999 }

/-- Second France row of the C1 witness table, at the later tied time. -/
def c1Row2 : OwidRow := { entityName := "France", time := 2001 }

/-- Iceland row of the C1 witness table, far from the target time. -/
def c1Row3 : OwidRow := { entityName := "Iceland", time := 1500 }

/-- The C1 witness table. -/
def c1Table : OwidTable := { rows := [c1Row1, c1Row2, c1Row3] }

/-- C1 witness: on the concrete table the tie between 1999 and 2001 for
target 2000 is resolved to the later row, which the theorem shows is at
least as close as the 1999 row. -/
theorem filterByTargetTime_correct_witness :
    (c1Row2 ∈ (filterByTargetTime c1Table 2000 1).rows) ∧
    (c1Row1 ∈ c1Table.rows) ∧
    (c1Row1.entityName = c1Row2.entityName) ∧
    (((c1Row1.time - 2000).natAbs : Int) ≤ 1) ∧
    ((c1Row2.time - 2000).natAbs < (c1Row1.time - 2000).natAbs ∨
      ((c1Row2.time - 2000).natAbs = (c1Row1.time - 2000).natAbs ∧ c1Row1.time ≤ c1Row2.time)) :=
  ⟨by decide, by decide, by decide, by decide,
    (filterByTargetTime_correct c1Table 2000 1).2.2.1 c1Row2 (by decide) c1Row1 (by decide)
      (by decide) (by decide)⟩

/-- The single row of the C2 failing input, lying exactly on the target
time, hence at index 0 of its entity row list. -/
def c2Row : OwidRow := { entityName := "France", time := 2000 }

/-- The C2 failing input: the lone France row is selected. -/
def c2Table : OwidTable := { rows := [c2Row], selection := [0] }

/-- C2: evaluation of getClosestRowForEachSelectedEntity at the failing
input.  The selected entity France has a row within tolerance of the
target (the sibling filterByTargetTime keeps exactly that row), yet the
returned row list is empty, because the source tests the matched index for
truthiness (rowIndex ? rows[rowIndex] : null) and index 0 is falsy. -/
theorem getClosestRow_truthy_zero_bug :
    getClosestRowForEachSelectedEntity c2Table 2000 0 = [] ∧
    selectedEntityNames c2Table = ["France"] ∧
    c2Row ∈ c2Table.rows ∧
    c2Row.entityName = "France" ∧
    (((c2Row.time - 2000).natAbs : Int) ≤ 0) ∧
    (filterByTargetTime c2Table 2000 0).rows = [c2Row] := by
  decide

theorem withIdx_map_snd {α : Type} (l : List α) (start : Nat) :
    (withIdx start l).map Prod.snd = l := by
  induction l generalizing start with
  | nil => simp [withIdx]
  | cons a rest ih => simp [withIdx, ih]

theorem filterByIdx_rows_all {t : OwidTable} {p : Nat → OwidRow → Bool}
    (h : ∀ q ∈ withIdx 0 t.rows, p q.1 q.2 = true) : (filterByIdx t p).rows = t.rows := by
  unfold filterByIdx
  rw [List.filter_eq_self.mpr h, withIdx_map_snd]

theorem mem_selectedEntityNames_of_selected {t : OwidTable} {i : Nat} {r : OwidRow}
    (hi : i ∈ t.selection) (hr : t.rows.get? i = some r) :
    r.entityName ∈ selectedEntityNames t := by
  unfold selectedEntityNames
  rw [mem_dedupFirst]
  exact List.mem_map.mpr ⟨r, List.mem_filterMap.mpr ⟨i, hi, hr⟩, rfl⟩

/-- First row of the C7 counterexample table: the selected entity. -/
def c7RowA : OwidRow := { entityName := "Austria", time := 2000 }

/-- Second row of the C7 counterexample table: an unselected entity. -/
def c7RowB : OwidRow := { entityName := "Belgium", time := 2000 }

/-- The C7 counterexample table, with the Austria row selected. -/
def c7Table : OwidTable := { rows := [c7RowA, c7RowB], selection := [0] }

/-- C7 counterexample: one application of filterBySelectedOnly keeps the
selected Austria row, but the child table starts with an empty selection,
so the second application drops the remaining row and the two row sets
differ. -/
theorem filterBySelectedOnly_not_idempotent :
    (filterBySelectedOnly (filterBySelectedOnly c7Table)).rows = [] ∧
    (filterBySelectedOnly c7Table).rows = [c7RowA] ∧
    ([] : List OwidRow) ≠ [c7RowA] := by
  decide

/-- C7 as amended: filtering to the selected rows drops no further rows on
a second application once the selection is carried over to the
intermediate table with copySelectionFrom. -/
theorem filterBySelectedOnly_twice_with_copied_selection (t : OwidTable) :
    (filterBySelectedOnly (copySelectionFrom (filterBySelectedOnly t) t)).rows =
      (filterBySelectedOnly t).rows := by
  have hrows : (copySelectionFrom (filterBySelectedOnly t) t).rows =
      (filterBySelectedOnly t).rows := rfl
  refine filterByIdx_rows_all ?_
  intro q hq
  rw [hrows] at hq
  have hr : (filterBySelectedOnly t).rows.get? q.1 = some q.2 := get?_eq_of_mem_withIdx hq
  have hrmem : q.2 ∈ (filterBySelectedOnly t).rows := List.get?_mem hr
  obtain ⟨i, hi, hp⟩ := mem_filterByIdx.mp hrmem
  have hisel : i ∈ t.selection := by
    have := of_decide_eq_true hp
    exact this
  have hname : q.2.entityName ∈ selectedEntityNames t :=
    mem_selectedEntityNames_of_selected hisel hi
  simp only [decide_eq_true_eq]
  show q.1 ∈ (copySelectionFrom (filterBySelectedOnly t) t).selection
  unfold copySelectionFrom setSelectedEntities setSelectedEntitiesOpt
  simp only [List.mem_map]
  refine ⟨q, List.mem_filter.mpr ⟨hq, ?_⟩, rfl⟩
  simp only [decide_eq_true_eq, List.mem_map]
  exact ⟨q.2.entityName, hname, rfl⟩

/-- The drop condition of claim C6, written from the claim text: the row
entity has a known nonzero population below the threshold and the row is
not selected. -/
def claimDroppedByPopulation (popMap : String → Option ℚ) (t : OwidTable) (minPop : ℚ)
    (i : Nat) (r : OwidRow) : Bool :=
  match popMap r.entityName with
  | some p => !(decide (p = 0)) && decide (p < minPop) && !(decide (isSelected t i))
  | none => false

/-- C6 as amended: filterByPopulation drops exactly the rows whose entity
has a known nonzero population below the threshold and is not selected;
in particular every selected row is kept regardless of its population. -/
theorem filterByPopulation_amended (popMap : String → Option ℚ) (t : OwidTable) (minPop : ℚ) :
    ((filterByPopulation popMap t minPop).rows =
      ((withIdx 0 t.rows).filter
        (fun q => !(claimDroppedByPopulation popMap t minPop q.1 q.2))).map Prod.snd) ∧
    (∀ i r, t.rows.get? i = some r → i ∈ t.selection →
      r ∈ (filterByPopulation popMap t minPop).rows) := by
  constructor
  · refine congrArg (List.map Prod.snd) (List.filter_congr ?_)
    intro q hq
    unfold claimDroppedByPopulation
    cases hpm : popMap q.2.entityName with
    | none => simp [hpm]
    | some p =>
      by_cases hp0 : p = 0 <;> by_cases hsel : isSelected t q.1 <;>
        simp [hpm, hp0, hsel, ← decide_not, not_lt]
  · intro i r hi hisel
    refine mem_filterByIdx.mpr ⟨i, hi, ?_⟩
    cases hpm : popMap r.entityName with
    | none => simp [hpm]
    | some p =>
      have : isSelected t i := hisel
      simp [hpm, this]

/-- C6 and C10 witness/counterexample rows: an unselected entity whose
mapped population is zero. -/
def c6Row : OwidRow := { entityName := "Atlantis", time := 2000 }

/-- The C6 counterexample table: nothing is selected. -/
def c6Table : OwidTable := { rows := [c6Row] }

/-- The population map of the C6 counterexample: Atlantis has a known
population of zero. -/
def c6PopMap : String → Option ℚ := fun n => if n = "Atlantis" then some 0 else none

/-- C6 counterexample: the unselected Atlantis row has a known population
(zero) below the threshold, yet filterByPopulation keeps it, because the
source treats a zero population as falsy (!pop) and keeps the row. -/
theorem filterByPopulation_keeps_zero_population :
    c6PopMap "Atlantis" = some 0 ∧
    ((0 : ℚ) < 100000000) ∧
    c6Table.selection = [] ∧
    (filterByPopulation c6PopMap c6Table 100000000).rows = [c6Row] ∧
    [c6Row] ≠ ([] : List OwidRow) := by
  decide

/-- C6 witness table: Atlantis selected this time, with a small nonzero
population, next to an unselected small entity. -/
def c6SelRow : OwidRow := { entityName := "Atlantis", time := 2000 }

/-- Second row of the C6 witness table: unselected small entity. -/
def c6SmallRow : OwidRow := { entityName := "Elbonia", time := 2000 }

/-- The C6 witness table with the Atlantis row selected. -/
def c6SelTable : OwidTable := { rows := [c6SelRow, c6SmallRow], selection := [0] }

/-- The population map of the C6 witness: both entities have population
one million, below the hundred million threshold. -/
def c6SelPopMap : String → Option ℚ := fun _ => some 1000000

/-- C6 witness: on the concrete table the claim-side drop condition and
the code agree, the selected small entity is kept and the unselected small
entity is dropped. -/
theorem filterByPopulation_amended_witness :
    (c6SelTable.rows.get? 0 = some c6SelRow) ∧
    ((0 : Nat) ∈ c6SelTable.selection) ∧
    (c6SelRow ∈ (filterByPopulation c6SelPopMap c6SelTable 100000000).rows) ∧
    ((filterByPopulation c6SelPopMap c6SelTable 100000000).rows = [c6SelRow]) :=
  ⟨by decide, by decide,
    (filterByPopulation_amended c6SelPopMap c6SelTable 100000000).2 0 c6SelRow
      (by decide) (by decide),
    by decide⟩

/-- C10: filterByPopulation keeps every row whose entity is absent from
the population map or has a mapped population of zero, for every threshold
and selection state: only entities with a known nonzero population can be
dropped. -/
theorem filterByPopulation_keeps_unknown_or_zero
    (popMap : String → Option ℚ) (t : OwidTable) (minPop : ℚ) (i : Nat) (r : OwidRow)
    (hi : t.rows.get? i = some r)
    (hpop : popMap r.entityName = none ∨ popMap r.entityName = some 0) :
    r ∈ (filterByPopulation popMap t minPop).rows := by
  refine mem_filterByIdx.mpr ⟨i, hi, ?_⟩
  rcases hpop with h | h <;> simp [h]

/-- C10 witness: the unselected zero-population Atlantis row survives the
hundred-million threshold. -/
theorem filterByPopulation_keeps_unknown_or_zero_witness :
    (c6Table.rows.get? 0 = some c6Row) ∧
    (c6PopMap c6Row.entityName = none ∨ c6PopMap c6Row.entityName = some 0) ∧
    c6Row ∈ (filterByPopulation c6PopMap c6Table 100000000).rows :=
  ⟨by decide, by decide,
    filterByPopulation_keeps_unknown_or_zero c6PopMap c6Table 100000000 0 c6Row
      (by decide) (by decide)⟩

/-- C9 as amended: both selection mutators silently skip inputs that
resolve to no entity (the resulting table is the one obtained from the
resolvable inputs alone); the by-code variant returns the subset of codes
found in the data, while the by-id variant returns the table produced by
setSelectedEntities, not the resolved id subset. -/
theorem selection_by_code_and_id (t : OwidTable) (codes : List String) (ids : List Nat) :
    ((setSelectedEntitiesByCode t codes).2 =
      SelReturn.retCodes (codes.filter (fun c => (getA (entityCodeToNameMap t) c).isSome))) ∧
    ((setSelectedEntitiesByCode t codes).1 =
      (setSelectedEntitiesByCode t
        (codes.filter (fun c => (getA (entityCodeToNameMap t) c).isSome))).1) ∧
    ((setSelectedEntitiesByEntityId t ids).1 =
      (setSelectedEntitiesByEntityId t
        (ids.filter (fun id => (getA (entityIdToNameMap t) id).isSome))).1) ∧
    ((setSelectedEntitiesByEntityId t ids).2 = SelReturn.retTable) := by
  refine ⟨rfl, ?_, ?_, rfl⟩
  · unfold setSelectedEntitiesByCode
    simp only [List.filter_filter, Bool.and_self]
  · unfold setSelectedEntitiesByEntityId setSelectedEntitiesOpt
    simp only [OwidTable.mk.injEq, and_true, true_and]
    refine congrArg (List.map Prod.fst) (List.filter_congr ?_)
    intro q hq
    refine decide_eq_decide.mpr ?_
    constructor
    · intro h
      obtain ⟨id, hid, hf⟩ := List.mem_map.mp h
      exact List.mem_map.mpr ⟨id, List.mem_filter.mpr ⟨hid, by simp [hf]⟩, hf⟩
    · intro h
      obtain ⟨id, hid, hf⟩ := List.mem_map.mp h
      exact List.mem_map.mpr ⟨id, (List.mem_filter.mp hid).1, hf⟩

/-- Austria row of the C9 counterexample table. -/
def c9RowA : OwidRow :=
  { entityName := "Austria", entityCode := some "AUT", entityId := 1, time := 2000 }

/-- Belgium row of the C9 counterexample table. -/
def c9RowB : OwidRow :=
  { entityName := "Belgium", entityCode := some "BEL", entityId := 2, time := 2000 }

/-- The C9 counterexample table. -/
def c9Table : OwidTable := { rows := [c9RowA, c9RowB] }

/-- C9 counterexample: with ids 1 (resolvable) and 99 (unknown), the by-id
variant silently skips 99 and selects the Austria row, but its JavaScript
return value is the table, not the resolved subset of ids that the claim
asserts. -/
theorem setSelectedEntitiesByEntityId_returns_table :
    ((setSelectedEntitiesByEntityId c9Table [1, 99]).2 = SelReturn.retTable) ∧
    (SelReturn.retTable ≠ SelReturn.retIds [1]) ∧
    ((setSelectedEntitiesByEntityId c9Table [1, 99]).1.selection = [0]) ∧
    ((setSelectedEntitiesByCode c9Table ["AUT", "XXX"]).2 = SelReturn.retCodes ["AUT"]) := by
  decide

theorem getVal_foldl_setVal (f : String → CellValue) :
    ∀ (slugs : List String) (acc : OwidRow) (slug : String),
      getVal (slugs.foldl (fun nr s => setVal nr s (f s)) acc) slug =
        (if slug ∈ slugs then f slug else getVal acc slug) := by
  intro slugs
  induction slugs with
  | nil => intro acc slug; simp
  | cons a rest ih =>
    intro acc slug
    simp only [List.foldl_cons, ih, List.mem_cons]
    by_cases hr : slug ∈ rest
    · simp [hr]
    · by_cases ha : slug = a
      · subst ha
        simp [hr, getVal_setVal_self]
      · simp [hr, ha, getVal_setVal_ne acc a slug (f a) (fun h => ha h.symm)]

/-- C4: toTotalGrowthForEachColumnComparedToStartTime sets, for every row
and every listed column, the value to -100 + 100 * value / comparisonValue
where comparisonValue is the value of that entity in that column at the
start time (per the entity and time index); when the entity has no numeric
value at the start time the cell becomes undefined, and no error is
raised.  On plain numbers the formula is the rational
-100 + 100 * value / comparison. -/
theorem toTotalGrowth_correct (t : OwidTable) (startTime : Int) (columnSlugs : List String) :
    (∀ i row, t.rows.get? i = some row → ∀ slug ∈ columnSlugs,
      ∃ row2,
        (toTotalGrowthForEachColumnComparedToStartTime t startTime columnSlugs).rows.get? i =
          some row2 ∧
        getVal row2 slug =
          (match valueByEntityNameAndTime t slug row.entityName startTime with
          | some comparisonValue =>
            if isJsNumber comparisonValue then
              jsAdd (CellValue.num (-100)) (jsDiv (jsMul100 (getVal row slug)) comparisonValue)
            else CellValue.undef
          | none => CellValue.undef)) ∧
    (∀ v c : ℚ, c ≠ 0 →
      jsAdd (CellValue.num (-100)) (jsDiv (jsMul100 (CellValue.num v)) (CellValue.num c)) =
        CellValue.num (-100 + 100 * v / c)) := by
  constructor
  · intro i row hrow slug hs
    refine ⟨columnSlugs.foldl (fun nr s => setVal nr s
      (match valueByEntityNameAndTime t s row.entityName startTime with
      | some comparisonValue =>
        if isJsNumber comparisonValue then
          jsAdd (CellValue.num (-100)) (jsDiv (jsMul100 (getVal row s)) comparisonValue)
        else CellValue.undef
      | none => CellValue.undef)) row, ?_, ?_⟩
    · unfold toTotalGrowthForEachColumnComparedToStartTime
      simp only [List.get?_map, hrow, Option.map_some']
    · rw [getVal_foldl_setVal]
      simp [hs]
  · intro v c hc
    simp [jsMul100, jsDiv, hc, jsAdd]

/-- France 1950 row of the C4 witness table: GDP 100 at the start time. -/
def c4Row1 : OwidRow :=
  { entityName := "France", time := 1950, vals := [("GDP", CellValue.num 100)] }

/-- France 2000 row of the C4 witness table: GDP 150. -/
def c4Row2 : OwidRow :=
  { entityName := "France", time := 2000, vals := [("GDP", CellValue.num 150)] }

/-- Iceland row of the C4 witness table: no row at the start time. -/
def c4Row3 : OwidRow :=
  { entityName := "Iceland", time := 2000, vals := [("GDP", CellValue.num 5)] }

/-- The C4 witness table. -/
def c4Table : OwidTable := { rows := [c4Row1, c4Row2, c4Row3] }

/-- C4 witness: relative to 1950, the France 2000 row with GDP 150 over a
1950 GDP of 100 becomes 50, and the Iceland row, absent at 1950, becomes
undefined. -/
theorem toTotalGrowth_correct_witness :
    (c4Table.rows.get? 1 = some c4Row2) ∧ ("GDP" ∈ ["GDP"]) ∧
    (∃ row2,
      (toTotalGrowthForEachColumnComparedToStartTime c4Table 1950 ["GDP"]).rows.get? 1 =
        some row2 ∧ getVal row2 "GDP" = CellValue.num 50) ∧
    (∃ row3,
      (toTotalGrowthForEachColumnComparedToStartTime c4Table 1950 ["GDP"]).rows.get? 2 =
        some row3 ∧ getVal row3 "GDP" = CellValue.undef) := by
  have h := toTotalGrowth_correct c4Table 1950 ["GDP"]
  refine ⟨by decide, by decide, ?_, ?_⟩
  · obtain ⟨row2, h1, h2⟩ := h.1 1 c4Row2 (by decide) "GDP" (by decide)
    refine ⟨row2, h1, h2.trans ?_⟩
    have hv : valueByEntityNameAndTime c4Table "GDP" c4Row2.entityName 1950 =
        some (CellValue.num 100) := by decide
    rw [hv]
    norm_num [isJsNumber, jsMul100, jsDiv, jsAdd, getVal, getA, c4Row2]
  · obtain ⟨row3, h1, h2⟩ := h.1 2 c4Row3 (by decide) "GDP" (by decide)
    refine ⟨row3, h1, h2.trans ?_⟩
    have hv : valueByEntityNameAndTime c4Table "GDP" c4Row3.entityName 1950 = none := by decide
    rw [hv]

theorem jsSumAux_num (qs : List ℚ) :
    ∀ a : ℚ, jsSumAux (some (CellValue.num a)) (qs.map CellValue.num) =
      some (CellValue.num (a + qs.sum)) := by
  induction qs with
  | nil => intro a; simp [jsSumAux]
  | cons q rest ih =>
    intro a
    simp only [List.map_cons, jsSumAux, jsAdd, ih, List.sum_cons]
    ring_nf

theorem jsSum_num (qs : List ℚ) (h : qs ≠ []) :
    jsSum (qs.map CellValue.num) = CellValue.num qs.sum := by
  cases qs with
  | nil => exact absurd rfl h
  | cons q rest =>
    simp only [jsSum, List.map_cons, List.isEmpty_cons, jsSumAux, jsSumAux_num, List.sum_cons]
    rfl

theorem exists_map_num {vs : List CellValue} (h : ∀ v ∈ vs, ∃ q, v = CellValue.num q) :
    ∃ qs : List ℚ, vs = qs.map CellValue.num := by
  induction vs with
  | nil => exact ⟨[], rfl⟩
  | cons v rest ih =>
    obtain ⟨q, hq⟩ := h v (List.mem_cons_self v rest)
    obtain ⟨qs, hqs⟩ := ih (fun w hw => h w (List.mem_cons_of_mem v hw))
    exact ⟨q :: qs, by simp [hq, hqs]⟩

theorem sum_map_scale_div (qs : List ℚ) (s : ℚ) :
    (qs.map (fun q => 100 * q / s)).sum = 100 * qs.sum / s := by
  induction qs with
  | nil => simp
  | cons q rest ih =>
    simp only [List.map_cons, List.sum_cons, ih]
    ring

/-- The row transformer applied by toPercentageFromEachEntityForEachTime. -/
def percentageRow (t : OwidTable) (columnSlug : String) (row : OwidRow) : OwidRow :=
  setVal row columnSlug
    (jsDiv (jsMul100 (getVal row columnSlug))
      (jsSum ((t.rows.filter (fun r2 => decide (r2.time = row.time))).map
        (fun r2 => getVal r2 columnSlug))))

theorem toPercentage_rows_eq (t : OwidTable) (columnSlug : String) :
    (toPercentageFromEachEntityForEachTime t columnSlug).rows =
      t.rows.map (percentageRow t columnSlug) := rfl

theorem percentageRow_time (t : OwidTable) (columnSlug : String) (row : OwidRow) :
    (percentageRow t columnSlug row).time = row.time := rfl

theorem percentageRow_entityName (t : OwidTable) (columnSlug : String) (row : OwidRow) :
    (percentageRow t columnSlug row).entityName = row.entityName := rfl

theorem percentageRow_getVal (t : OwidTable) (columnSlug : String) (row : OwidRow) :
    getVal (percentageRow t columnSlug row) columnSlug =
      jsDiv (jsMul100 (getVal row columnSlug))
        (jsSum ((t.rows.filter (fun r2 => decide (r2.time = row.time))).map
          (fun r2 => getVal r2 columnSlug))) :=
  getVal_setVal_self _ _ _

theorem toPercentage_get? (t : OwidTable) (columnSlug : String) {i : Nat} {row : OwidRow}
    (hrow : t.rows.get? i = some row) :
    (toPercentageFromEachEntityForEachTime t columnSlug).rows.get? i =
      some (percentageRow t columnSlug row) := by
  rw [toPercentage_rows_eq, List.get?_map, hrow, Option.map_some']

theorem toPercentage_group (t : OwidTable) (columnSlug : String) (τ : Int) :
    (toPercentageFromEachEntityForEachTime t columnSlug).rows.filter
        (fun r => decide (r.time = τ)) =
      (t.rows.filter (fun r => decide (r.time = τ))).map (percentageRow t columnSlug) := by
  rw [toPercentage_rows_eq, List.filter_map]
  exact congrArg (List.map (percentageRow t columnSlug))
    (List.filter_congr (fun r _ => by simp [Function.comp, percentageRow_time]))

theorem toPercentage_sum100 (t : OwidTable) (columnSlug : String) (τ : Int) (s : ℚ)
    (hall : ∀ v ∈ (t.rows.filter (fun r2 => decide (r2.time = τ))).map
      (fun r2 => getVal r2 columnSlug), ∃ q, v = CellValue.num q)
    (hsum : jsSum ((t.rows.filter (fun r2 => decide (r2.time = τ))).map
      (fun r2 => getVal r2 columnSlug)) = CellValue.num s)
    (hs : s ≠ 0) :
    jsSum (((toPercentageFromEachEntityForEachTime t columnSlug).rows.filter
        (fun r2 => decide (r2.time = τ))).map (fun r2 => getVal r2 columnSlug)) =
      CellValue.num 100 := by
  obtain ⟨qs, hqs⟩ := exists_map_num hall
  have hne : qs ≠ [] := by
    intro hnil
    rw [hnil] at hqs
    simp only [List.map_nil] at hqs
    rw [hqs] at hsum
    simp only [jsSum, List.isEmpty_nil, if_pos, CellValue.num.injEq] at hsum
    exact hs hsum.symm
  have hsum2 : qs.sum = s := by
    rw [hqs, jsSum_num qs hne] at hsum
    exact CellValue.num.inj hsum
  rw [toPercentage_group, List.map_map]
  have hvals : (t.rows.filter (fun r2 => decide (r2.time = τ))).map
      ((fun r2 => getVal r2 columnSlug) ∘ percentageRow t columnSlug) =
      (t.rows.filter (fun r2 => decide (r2.time = τ))).map
        (fun r => jsDiv (jsMul100 (getVal r columnSlug)) (CellValue.num s)) := by
    refine List.map_congr_left ?_
    intro r hr
    have htime : r.time = τ := by
      have := (List.mem_filter.mp hr).2
      simpa using this
    simp only [Function.comp, percentageRow_getVal, htime, hsum]
  rw [hvals]
  have hmm : (t.rows.filter (fun r2 => decide (r2.time = τ))).map
      (fun r => jsDiv (jsMul100 (getVal r columnSlug)) (CellValue.num s)) =
      ((t.rows.filter (fun r2 => decide (r2.time = τ))).map
        (fun r2 => getVal r2 columnSlug)).map
          (fun v => jsDiv (jsMul100 v) (CellValue.num s)) := by
    rw [List.map_map]
    rfl
  rw [hmm, hqs, List.map_map]
  have hpt : (fun v => jsDiv (jsMul100 v) (CellValue.num s)) ∘ CellValue.num =
      CellValue.num ∘ (fun q => 100 * q / s) := by
    funext q
    simp [Function.comp, jsMul100, jsDiv, hs]
  rw [hpt, ← List.map_map, jsSum_num _ (by simpa using hne), sum_map_scale_div, hsum2,
    mul_div_assoc, div_self hs, mul_one]

/-- C3 as amended: toPercentageFromEachEntityForEachTime rewrites the slug
column spec to the Percentage type; each row value of that column becomes
100 * value divided by the sum of the column over the rows sharing the row
time; and for a time at which every row has a plain numeric value in the
column with a nonzero sum, the resulting values across entities at that
time sum to 100. -/
theorem toPercentage_correct (t : OwidTable) (columnSlug : String) :
    (∀ spec ∈ (toPercentageFromEachEntityForEachTime t columnSlug).specs,
      spec.slug = columnSlug → spec.type = ColumnTypeNames.Percentage) ∧
    (∀ i row, t.rows.get? i = some row →
      ∃ row2, (toPercentageFromEachEntityForEachTime t columnSlug).rows.get? i = some row2 ∧
        row2.entityName = row.entityName ∧ row2.time = row.time ∧
        getVal row2 columnSlug =
          jsDiv (jsMul100 (getVal row columnSlug))
            (jsSum ((t.rows.filter (fun r2 => decide (r2.time = row.time))).map
              (fun r2 => getVal r2 columnSlug)))) ∧
    (∀ (τ : Int) (s : ℚ),
      (∀ v ∈ (t.rows.filter (fun r2 => decide (r2.time = τ))).map
        (fun r2 => getVal r2 columnSlug), ∃ q, v = CellValue.num q) →
      jsSum ((t.rows.filter (fun r2 => decide (r2.time = τ))).map
        (fun r2 => getVal r2 columnSlug)) = CellValue.num s →
      s ≠ 0 →
      jsSum (((toPercentageFromEachEntityForEachTime t columnSlug).rows.filter
        (fun r2 => decide (r2.time = τ))).map (fun r2 => getVal r2 columnSlug)) =
        CellValue.num 100) := by
  refine ⟨?_, ?_, toPercentage_sum100 t columnSlug⟩
  · intro spec hspec hslug
    simp only [toPercentageFromEachEntityForEachTime, List.mem_map] at hspec
    obtain ⟨spec0, -, hspec0⟩ := hspec
    by_cases h0 : spec0.slug = columnSlug
    · rw [if_pos h0] at hspec0
      rw [← hspec0]
    · rw [if_neg h0] at hspec0
      rw [← hspec0] at hslug
      exact absurd hslug h0
  · intro i row hrow
    exact ⟨percentageRow t columnSlug row, toPercentage_get? t columnSlug hrow,
      percentageRow_entityName t columnSlug row, percentageRow_time t columnSlug row,
      percentageRow_getVal t columnSlug row⟩

theorem jsDiv_mul100_nonfinite (v total : CellValue)
    (h : total = CellValue.num 0 ∨ total = CellValue.undef) :
    jsDiv (jsMul100 v) total = CellValue.nan ∨ jsDiv (jsMul100 v) total = CellValue.inf ∨
      jsDiv (jsMul100 v) total = CellValue.neginf := by
  rcases h with rfl | rfl
  · cases v with
    | num q =>
      simp only [jsMul100, jsDiv, if_pos rfl]
      split_ifs <;> simp
    | nan => simp [jsMul100, jsDiv]
    | inf => simp [jsMul100, jsDiv]
    | neginf => simp [jsMul100, jsDiv]
    | str s => simp [jsMul100, jsDiv]
    | undef => simp [jsMul100, jsDiv]
  · cases v <;> simp [jsMul100, jsDiv]

/-- C5 as amended: when the sum of the column over the rows at a row time
is zero or absent, the affected cell of toPercentageFromEachEntityForEachTime
becomes a non-finite marker (NaN, Infinity or -Infinity) rather than an
error or a finite wrong value; the operation is total. -/
theorem toPercentage_zero_or_absent_sum (t : OwidTable) (columnSlug : String)
    (i : Nat) (row : OwidRow) (hrow : t.rows.get? i = some row)
    (hsum : jsSum ((t.rows.filter (fun r2 => decide (r2.time = row.time))).map
        (fun r2 => getVal r2 columnSlug)) = CellValue.num 0 ∨
      jsSum ((t.rows.filter (fun r2 => decide (r2.time = row.time))).map
        (fun r2 => getVal r2 columnSlug)) = CellValue.undef) :
    ∃ row2, (toPercentageFromEachEntityForEachTime t columnSlug).rows.get? i = some row2 ∧
      (getVal row2 columnSlug = CellValue.nan ∨ getVal row2 columnSlug = CellValue.inf ∨
        getVal row2 columnSlug = CellValue.neginf) ∧
      (∀ q : ℚ, getVal row2 columnSlug ≠ CellValue.num q) := by
  refine ⟨percentageRow t columnSlug row, toPercentage_get? t columnSlug hrow, ?_, ?_⟩
  · rw [percentageRow_getVal]
    rcases hsum with h0 | h0 <;> rw [h0]
    · exact jsDiv_mul100_nonfinite _ _ (Or.inl rfl)
    · exact jsDiv_mul100_nonfinite _ _ (Or.inr rfl)
  · intro q hq
    rw [percentageRow_getVal] at hq
    have hnf : jsDiv (jsMul100 (getVal row columnSlug))
        (jsSum ((t.rows.filter (fun r2 => decide (r2.time = row.time))).map
          (fun r2 => getVal r2 columnSlug))) = CellValue.nan ∨
        jsDiv (jsMul100 (getVal row columnSlug))
          (jsSum ((t.rows.filter (fun r2 => decide (r2.time = row.time))).map
            (fun r2 => getVal r2 columnSlug))) = CellValue.inf ∨
        jsDiv (jsMul100 (getVal row columnSlug))
          (jsSum ((t.rows.filter (fun r2 => decide (r2.time = row.time))).map
            (fun r2 => getVal r2 columnSlug))) = CellValue.neginf := by
      rcases hsum with h0 | h0 <;> rw [h0]
      · exact jsDiv_mul100_nonfinite _ _ (Or.inl rfl)
      · exact jsDiv_mul100_nonfinite _ _ (Or.inr rfl)
    rcases hnf with h | h | h <;> rw [hq] at h <;> exact CellValue.noConfusion h

/-- Austria row of the C3 example tables: GDP 30 in 2000. -/
def c3RowA : OwidRow := { entityName := "Austria", time := 2000, vals := [("GDP", CellValue.num 30)] }

/-- Belgium row of the C3 example tables: GDP 70 in 2000. -/
def c3RowB : OwidRow := { entityName := "Belgium", time := 2000, vals := [("GDP", CellValue.num 70)] }

/-- The C3 witness table: two entities with GDP 30 and 70 at one time. -/
def c3Table : OwidTable := { rows := [c3RowA, c3RowB] }

/-- Chad row of the C3 counterexample table: present in 2000 but with no
GDP value. -/
def c3RowC : OwidRow := { entityName := "Chad", time := 2000 }

/-- The C3 counterexample table: 30, 70 and an absent value at one time. -/
def c3NanTable : OwidTable := { rows := [c3RowA, c3RowB, c3RowC] }

/-- C3 witness: on the 30/70 table the hypotheses hold (all values numeric
with sum 100) and the results are 30 and 70 with percentage sum 100. -/
theorem toPercentage_correct_witness :
    (∀ v ∈ (c3Table.rows.filter (fun r2 => decide (r2.time = (2000 : Int)))).map
      (fun r2 => getVal r2 "GDP"), ∃ q, v = CellValue.num q) ∧
    (jsSum ((c3Table.rows.filter (fun r2 => decide (r2.time = (2000 : Int)))).map
      (fun r2 => getVal r2 "GDP")) = CellValue.num 100) ∧
    ((100 : ℚ) ≠ 0) ∧
    (jsSum (((toPercentageFromEachEntityForEachTime c3Table "GDP").rows.filter
      (fun r2 => decide (r2.time = (2000 : Int)))).map (fun r2 => getVal r2 "GDP")) =
      CellValue.num 100) ∧
    (∃ rowA, (toPercentageFromEachEntityForEachTime c3Table "GDP").rows.get? 0 = some rowA ∧
      getVal rowA "GDP" = CellValue.num 30) := by
  have hlist : (c3Table.rows.filter (fun r2 => decide (r2.time = (2000 : Int)))).map
      (fun r2 => getVal r2 "GDP") = [CellValue.num 30, CellValue.num 70] := by decide
  have hall : ∀ v ∈ (c3Table.rows.filter (fun r2 => decide (r2.time = (2000 : Int)))).map
      (fun r2 => getVal r2 "GDP"), ∃ q, v = CellValue.num q := by
    rw [hlist]
    intro v hv
    simp only [List.mem_cons, List.not_mem_nil, or_false] at hv
    rcases hv with rfl | rfl
    · exact ⟨30, rfl⟩
    · exact ⟨70, rfl⟩
  have hsum : jsSum ((c3Table.rows.filter (fun r2 => decide (r2.time = (2000 : Int)))).map
      (fun r2 => getVal r2 "GDP")) = CellValue.num 100 := by
    rw [hlist]
    norm_num [jsSum, jsSumAux, jsAdd]
  refine ⟨hall, hsum, by norm_num,
    (toPercentage_correct c3Table "GDP").2.2 2000 100 hall hsum (by norm_num), ?_⟩
  obtain ⟨rowA, h1, -, -, h4⟩ := (toPercentage_correct c3Table "GDP").2.1 0 c3RowA (by decide)
  refine ⟨rowA, h1, h4.trans ?_⟩
  have htime : c3RowA.time = (2000 : Int) := rfl
  rw [htime, hlist]
  have hv : getVal c3RowA "GDP" = CellValue.num 30 := by decide
  rw [hv]
  norm_num [jsSum, jsSumAux, jsAdd, jsMul100, jsDiv]

/-- C3 counterexample: on the table with values 30, 70 and an absent value
at one time the original sum is the nonzero 100, but the transformed cell
of the absent value is NaN and the sum of the results at that time is NaN,
not 100. -/
theorem toPercentage_sum_not_100_counterexample :
    (jsSum ((c3NanTable.rows.filter (fun r2 => decide (r2.time = (2000 : Int)))).map
      (fun r2 => getVal r2 "GDP")) = CellValue.num 100) ∧
    ((100 : ℚ) ≠ 0) ∧
    (jsSum (((toPercentageFromEachEntityForEachTime c3NanTable "GDP").rows.filter
      (fun r2 => decide (r2.time = (2000 : Int)))).map (fun r2 => getVal r2 "GDP")) =
      CellValue.nan) ∧
    (CellValue.nan ≠ CellValue.num 100) := by
  have hlist : (c3NanTable.rows.filter (fun r2 => decide (r2.time = (2000 : Int)))).map
      (fun r2 => getVal r2 "GDP") = [CellValue.num 30, CellValue.num 70, CellValue.undef] := by
    decide
  have hsum : jsSum ((c3NanTable.rows.filter (fun r2 => decide (r2.time = (2000 : Int)))).map
      (fun r2 => getVal r2 "GDP")) = CellValue.num 100 := by
    rw [hlist]
    norm_num [jsSum, jsSumAux, jsAdd]
  have horig : c3NanTable.rows.filter (fun r2 => decide (r2.time = (2000 : Int))) =
      [c3RowA, c3RowB, c3RowC] := by decide
  have hgroup : (((toPercentageFromEachEntityForEachTime c3NanTable "GDP").rows.filter
      (fun r2 => decide (r2.time = (2000 : Int)))).map (fun r2 => getVal r2 "GDP")) =
      [CellValue.num 30, CellValue.num 70, CellValue.nan] := by
    rw [toPercentage_group, List.map_map, horig]
    simp only [List.map_cons, List.map_nil, Function.comp, percentageRow_getVal]
    rw [show c3RowA.time = (2000 : Int) from rfl, show c3RowB.time = (2000 : Int) from rfl,
      show c3RowC.time = (2000 : Int) from rfl, hlist,
      show jsSum [CellValue.num 30, CellValue.num 70, CellValue.undef] = CellValue.num 100 from by
        norm_num [jsSum, jsSumAux, jsAdd]]
    rw [show getVal c3RowA "GDP" = CellValue.num 30 from by decide,
      show getVal c3RowB "GDP" = CellValue.num 70 from by decide,
      show getVal c3RowC "GDP" = CellValue.undef from by decide]
    norm_num [jsMul100, jsDiv]
  refine ⟨hsum, by norm_num, ?_, by decide⟩
  rw [hgroup]
  norm_num [jsSum, jsSumAux, jsAdd]

/-- Austria row of the C5 tables: value 30 in 2000. -/
def c5RowA : OwidRow := { entityName := "Austria", time := 2000, vals := [("GDP", CellValue.num 30)] }

/-- Belgium row of the C5 tables: value -30 in 2000, so the sum at 2000 is
zero. -/
def c5RowB : OwidRow :=
  { entityName := "Belgium", time := 2000, vals := [("GDP", CellValue.num (-30))] }

/-- The C5 zero-sum table. -/
def c5Table : OwidTable := { rows := [c5RowA, c5RowB] }

/-- C5 counterexample: with values 30 and -30 at one time the sum is zero
and the transformed Austria cell is Infinity, which is neither the
undefined marker nor NaN that the claim asserts. -/
theorem toPercentage_zero_sum_infinity_counterexample :
    (jsSum ((c5Table.rows.filter (fun r2 => decide (r2.time = (2000 : Int)))).map
      (fun r2 => getVal r2 "GDP")) = CellValue.num 0) ∧
    (∃ rowA, (toPercentageFromEachEntityForEachTime c5Table "GDP").rows.get? 0 = some rowA ∧
      getVal rowA "GDP" = CellValue.inf) ∧
    (CellValue.inf ≠ CellValue.undef) ∧ (CellValue.inf ≠ CellValue.nan) := by
  have hlist : (c5Table.rows.filter (fun r2 => decide (r2.time = (2000 : Int)))).map
      (fun r2 => getVal r2 "GDP") = [CellValue.num 30, CellValue.num (-30)] := by decide
  have hsum : jsSum ((c5Table.rows.filter (fun r2 => decide (r2.time = (2000 : Int)))).map
      (fun r2 => getVal r2 "GDP")) = CellValue.num 0 := by
    rw [hlist]
    norm_num [jsSum, jsSumAux, jsAdd]
  refine ⟨hsum, ?_, by decide, by decide⟩
  refine ⟨percentageRow c5Table "GDP" c5RowA, toPercentage_get? c5Table "GDP" (by decide), ?_⟩
  rw [percentageRow_getVal, show c5RowA.time = (2000 : Int) from rfl, hsum,
    show getVal c5RowA "GDP" = CellValue.num 30 from by decide]
  norm_num [jsMul100, jsDiv]

/-- C5 witness: on the zero-sum table the hypothesis of the amended
theorem holds at the Austria row, and the affected cell is indeed one of
the non-finite markers. -/
theorem toPercentage_zero_or_absent_sum_witness :
    (c5Table.rows.get? 0 = some c5RowA) ∧
    (jsSum ((c5Table.rows.filter (fun r2 => decide (r2.time = c5RowA.time))).map
        (fun r2 => getVal r2 "GDP")) = CellValue.num 0 ∨
      jsSum ((c5Table.rows.filter (fun r2 => decide (r2.time = c5RowA.time))).map
        (fun r2 => getVal r2 "GDP")) = CellValue.undef) ∧
    (∃ row2, (toPercentageFromEachEntityForEachTime c5Table "GDP").rows.get? 0 = some row2 ∧
      (getVal row2 "GDP" = CellValue.nan ∨ getVal row2 "GDP" = CellValue.inf ∨
        getVal row2 "GDP" = CellValue.neginf) ∧
      (∀ q : ℚ, getVal row2 "GDP" ≠ CellValue.num q)) := by
  have hsum : jsSum ((c5Table.rows.filter (fun r2 => decide (r2.time = c5RowA.time))).map
      (fun r2 => getVal r2 "GDP")) = CellValue.num 0 := by
    rw [show (c5Table.rows.filter (fun r2 => decide (r2.time = c5RowA.time))).map
        (fun r2 => getVal r2 "GDP") = [CellValue.num 30, CellValue.num (-30)] from by decide]
    norm_num [jsSum, jsSumAux, jsAdd]
  exact ⟨by decide, Or.inl hsum,
    toPercentage_zero_or_absent_sum c5Table "GDP" 0 c5RowA (by decide) (Or.inl hsum)⟩

theorem mapME_error_typeError {α β : Type} {f : α → Except IngestError β}
    (hf : ∀ a e, f a = Except.error e → ∃ msg, e = IngestError.typeError msg) :
    ∀ {l : List α} {e : IngestError}, mapME f l = Except.error e →
      ∃ msg, e = IngestError.typeError msg := by
  intro l
  induction l with
  | nil => intro e h; exact Except.noConfusion h
  | cons a rest ih =>
    intro e h
    simp only [mapME] at h
    cases ha : f a with
    | error e0 =>
      simp only [ha, Except.error.injEq] at h
      subst h
      exact hf a e0 ha
    | ok b =>
      simp only [ha] at h
      cases hr : mapME f rest with
      | error e0 =>
        simp only [hr, Except.error.injEq] at h
        subst h
        exact ih hr
      | ok bs =>
        simp only [hr] at h
        exact Except.noConfusion h

theorem mapME_error_of_mem {α β : Type} {f : α → Except IngestError β} :
    ∀ {l : List α} {a : α}, a ∈ l → ∀ {e0 : IngestError}, f a = Except.error e0 →
      ∃ e, mapME f l = Except.error e := by
  intro l
  induction l with
  | nil => intro a ha; exact absurd ha (List.not_mem_nil a)
  | cons b rest ih =>
    intro a ha e0 hfa
    simp only [mapME]
    cases hb : f b with
    | error e => exact ⟨e, rfl⟩
    | ok v =>
      rcases List.mem_cons.mp ha with rfl | hmem
      · rw [hfa] at hb
        exact Except.noConfusion hb
      · obtain ⟨e, he⟩ := ih hmem hfa
        rw [he]
        exact ⟨e, rfl⟩

theorem entityNamesOf_error_typeError {entityKey : List (Nat × LegacyEntityMeta)}
    {v : LegacyVariableConfig} {e : IngestError}
    (h : entityNamesOf entityKey v = Except.error e) : ∃ msg, e = IngestError.typeError msg := by
  unfold entityNamesOf at h
  cases hv : v.entities with
  | none => rw [hv] at h; exact Except.noConfusion h
  | some ids =>
    rw [hv] at h
    refine mapME_error_typeError ?_ h
    intro id e0 hid
    cases hm : lookupEntityMeta entityKey id with
    | some meta => rw [hm] at hid; exact Except.noConfusion hid
    | none =>
      rw [hm] at hid
      simp only [Except.error.injEq] at hid
      exact ⟨"cannot read name of undefined", hid.symm⟩

theorem entityCodesOf_error_typeError {entityKey : List (Nat × LegacyEntityMeta)}
    {v : LegacyVariableConfig} {e : IngestError}
    (h : entityCodesOf entityKey v = Except.error e) : ∃ msg, e = IngestError.typeError msg := by
  unfold entityCodesOf at h
  cases hv : v.entities with
  | none => rw [hv] at h; exact Except.noConfusion h
  | some ids =>
    rw [hv] at h
    refine mapME_error_typeError ?_ h
    intro id e0 hid
    cases hm : lookupEntityMeta entityKey id with
    | some meta => rw [hm] at hid; exact Except.noConfusion hid
    | none =>
      rw [hm] at hid
      simp only [Except.error.injEq] at hid
      exact ⟨"cannot read code of undefined", hid.symm⟩

theorem processLegacyVariable_error_typeError {entityKey : List (Nat × LegacyEntityMeta)}
    {diffDays : String → String → Int} {v : LegacyVariableConfig} {e : IngestError}
    (h : processLegacyVariable entityKey diffDays v = Except.error e) :
    ∃ msg, e = IngestError.typeError msg := by
  unfold processLegacyVariable at h
  cases hn : entityNamesOf entityKey v with
  | error e0 =>
    rw [hn] at h
    simp only [Except.error.injEq] at h
    exact h ▸ entityNamesOf_error_typeError hn
  | ok names =>
    rw [hn] at h
    cases hc : entityCodesOf entityKey v with
    | error e0 =>
      rw [hc] at h
      simp only [Except.error.injEq] at h
      exact h ▸ entityCodesOf_error_typeError hc
    | ok codes =>
      rw [hc] at h
      exact Except.noConfusion h

theorem processLegacyVariable_error_of_missing {entityKey : List (Nat × LegacyEntityMeta)}
    (diffDays : String → String → Int) {v : LegacyVariableConfig} {ids : List Nat} {id : Nat}
    (hids : v.entities = some ids) (hid : id ∈ ids)
    (hmeta : lookupEntityMeta entityKey id = none) :
    ∃ e, processLegacyVariable entityKey diffDays v = Except.error e := by
  have hn : ∃ e, entityNamesOf entityKey v = Except.error e := by
    unfold entityNamesOf
    rw [hids]
    exact mapME_error_of_mem hid (by rw [hmeta])
  obtain ⟨e, he⟩ := hn
  refine ⟨e, ?_⟩
  unfold processLegacyVariable
  rw [he]

theorem foldLegacyVariables_error_of_missing {entityKey : List (Nat × LegacyEntityMeta)}
    {diffDays : String → String → Int} :
    ∀ {vars : List LegacyVariableConfig},
      (∃ v ∈ vars, ∃ id ∈ v.entities.getD [], lookupEntityMeta entityKey id = none) →
      ∀ acc, ∃ msg, foldLegacyVariables entityKey diffDays vars acc =
        Except.error (IngestError.typeError msg) := by
  intro vars
  induction vars with
  | nil =>
    rintro ⟨v, hv, -⟩
    exact absurd hv (List.not_mem_nil v)
  | cons v0 rest ih =>
    rintro ⟨v, hv, id, hid, hmeta⟩ acc
    simp only [foldLegacyVariables]
    cases hp : processLegacyVariable entityKey diffDays v0 with
    | error e =>
      obtain ⟨msg, hmsg⟩ := processLegacyVariable_error_typeError hp
      exact ⟨msg, by rw [hmsg]⟩
    | ok pair =>
      rcases List.mem_cons.mp hv with rfl | hmem
      · cases hids : v.entities with
        | none => rw [hids] at hid; exact absurd hid (List.not_mem_nil id)
        | some ids =>
          rw [hids] at hid
          simp only [Option.getD_some] at hid
          obtain ⟨e, he⟩ := processLegacyVariable_error_of_missing diffDays hids hid hmeta
          rw [he] at hp
          exact Except.noConfusion hp
      · obtain ⟨msg, hmsg⟩ := ih ⟨v, hmem, id, hid, hmeta⟩
          (acc.1 ++ pair.1, applySpecUpdates acc.2 pair.2)
        exact ⟨msg, by rw [← hmsg]⟩

/-- C8 as amended: a wire payload in which some variable references an
entity id absent from the entity metadata map makes legacyVariablesToTabular
fail, but with a generic type error (reading a property of undefined) that
names neither the id nor the variable; no ReferentialIntegrityError exists
in the code. -/
theorem legacyVariablesToTabular_missing_entity (diffDays : String → String → Int)
    (json : LegacyVariablesAndEntityKey)
    (h : ∃ v ∈ json.variableList, ∃ id ∈ v.entities.getD [],
      lookupEntityMeta json.entityKey id = none) :
    ∃ msg, legacyVariablesToTabular diffDays json =
      Except.error (IngestError.typeError msg) := by
  obtain ⟨msg, hmsg⟩ := foldLegacyVariables_error_of_missing h ([], requiredColumnSpecPairs)
  refine ⟨msg, ?_⟩
  unfold legacyVariablesToTabular
  rw [hmsg]

/-- The C8 failing variable: variable 7 references entity id 5. -/
def c8Variable : LegacyVariableConfig :=
  { id := 7, name := some "Var", entities := some [5],
    values := some [CellValue.num 1], years := some [2000] }

/-- The C8 failing payload: entity id 5 is absent from the entityKey. -/
def c8Payload : LegacyVariablesAndEntityKey :=
  { variableList := [c8Variable], entityKey := [] }

/-- A concrete day difference function for the C8 evaluation (never
reached on this payload). -/
def c8DiffDays : String → String → Int := fun _ _ => 0

/-- C8 counterexample: ingesting the payload whose variable 7 references
the absent entity id 5 fails with the generic type error of reading the
name property of undefined, not with a ReferentialIntegrityError naming
the id and variable. -/
theorem legacyVariablesToTabular_typeError_counterexample :
    (legacyVariablesToTabular c8DiffDays c8Payload =
      Except.error (IngestError.typeError "cannot read name of undefined")) ∧
    (legacyVariablesToTabular c8DiffDays c8Payload ≠
      Except.error (IngestError.referentialIntegrity 5 7)) := by
  constructor
  · rfl
  · intro h
    rw [show legacyVariablesToTabular c8DiffDays c8Payload =
        Except.error (IngestError.typeError "cannot read name of undefined") from rfl] at h
    simp at h

/-- C8 witness: the failing payload satisfies the missing-id premise and
the amended theorem yields the type error. -/
theorem legacyVariablesToTabular_missing_entity_witness :
    (∃ v ∈ c8Payload.variableList, ∃ id ∈ v.entities.getD [],
      lookupEntityMeta c8Payload.entityKey id = none) ∧
    (∃ msg, legacyVariablesToTabular c8DiffDays c8Payload =
      Except.error (IngestError.typeError msg)) :=
  ⟨by decide, legacyVariablesToTabular_missing_entity c8DiffDays c8Payload (by decide)⟩
